import Mathlib

/-!
Shallow embedding of the PDF/image file-upload server
(`src/unnamed/part_000` route handlers, `src/data.js` persistence layer).

Modelling conventions:
* The in-memory JS `Map` (`pdfFiles`) is an insertion-ordered association
  list `List (String × Record)`.  `Map.set` replaces in place when the key is
  present and appends otherwise, exactly like the JS `Map`.
* The blob directory is a set of paths `List String`.  `multer.diskStorage`
  writes the uploaded file under `"uploads/pdfs/" ++ originalname` *before*
  the route handler body runs, which the transaction functions reproduce.
* `fs.unlink` throws when the path is absent (ENOENT) or when an external
  I/O fault occurs; the route handlers catch both in one `catch` block.  The
  external fault is modelled by the boolean `unlinkFault` input.
* Timestamps (`new Date().toISOString()`) are modelled as `Nat`; ISO-8601
  UTC strings compare chronologically, so `Nat` order models string order.
  A caller-supplied date field present in the request body is `some n`
  (JS treats a non-empty string as truthy; an absent or empty field is
  `none`).
* The route handler aliases `const metadata = pdfFiles.get(id)` and mutates
  it in place, but every failure exit happens before the first mutation, so
  the value-semantics encoding below is equivalent.
-/

deriving instance DecidableEq for Except

namespace PdfStore

/-- One metadata entry of the store (the object literal built in
`app.post("/pdf/create")`). -/
structure Record where
  id : String
  filename : String
  filepath : String
  size : Nat
  uploadDate : Nat
  editDate : Nat
deriving DecidableEq

/-- The in-memory index `pdfFiles : Map<string, Record>`. -/
abbrev FileMap := List (String × Record)

/-- `Map.prototype.get`. -/
def mapGet : FileMap → String → Option Record
  | [], _ => none
  | (k', v) :: rest, k => if k' = k then some v else mapGet rest k

/-- `Map.prototype.set`: replace in place when present, append otherwise. -/
def mapSet : FileMap → String → Record → FileMap
  | [], k, v => [(k, v)]
  | (k', v') :: rest, k, v =>
      if k' = k then (k, v) :: rest else (k', v') :: mapSet rest k v

/-- `Map.prototype.delete`. -/
def mapDelete (m : FileMap) (k : String) : FileMap :=
  m.filter (fun p => p.1 != k)

/-- `Array.from(map.values())`. -/
def mapValues (m : FileMap) : List Record :=
  m.map Prod.snd

/-- The filenames of the live records, with multiplicity. -/
def names (m : FileMap) : List String :=
  m.map (fun p => p.2.filename)

/-- The blob directory contents: the set of on-disk paths. -/
abbrev Fs := List String

/-- Writing a blob: the path becomes present (overwrite keeps it present). -/
def fsWrite (fs : Fs) (p : String) : Fs :=
  if p ∈ fs then fs else p :: fs

/-- Removing a blob from disk. -/
def fsRemove (fs : Fs) (p : String) : Fs :=
  fs.filter (fun q => q != p)

/-- The error taxonomy of the route handlers (`http-errors` statuses). -/
inductive TxError where
  | badRequest   -- 400 "No file uploaded"
  | notFound     -- 404
  | conflict     -- 409 "File with the same name already exists"
  | ioError      -- 500
deriving DecidableEq

/-- The state a category manager touches: the index plus the blob directory. -/
structure ServerState where
  pdfFiles : FileMap
  fs : Fs
deriving DecidableEq

/-- `multer.diskStorage` destination for the PDF category. -/
def UPLOADS_PDFS_DIR : String := "uploads/pdfs/"

/-- `app.post("/pdf/create")`.  `reqFile = some (originalname, size)` models
`req.file`; multer has stored the upload under its original name before the
handler body runs, also when the handler then rejects with 409. -/
def createTx (st : ServerState) (reqFile : Option (String × Nat))
    (newId : String) (now : Nat) : ServerState × Except TxError String :=
  match reqFile with
  | none => (st, .error .badRequest)
  | some (originalname, size) =>
      let newPath := UPLOADS_PDFS_DIR ++ originalname
      let fs1 := fsWrite st.fs newPath
      if (mapValues st.pdfFiles).any (fun f => f.filename == originalname) then
        ({ st with fs := fs1 }, .error .conflict)
      else
        let metadata : Record :=
          { id := newId, filename := originalname, filepath := newPath,
            size := size, uploadDate := now, editDate := now }
        ({ pdfFiles := mapSet st.pdfFiles newId metadata, fs := fs1 }, .ok newId)

/-- The optional metadata fields read from `req.body` in
`app.patch("/pdf/edit/:id")`. -/
structure EditBody where
  newFilename : Option String
  newUploadDate : Option Nat
  newEditDate : Option Nat
deriving DecidableEq

/-- The metadata updates applied after the blob step of the edit handler:
`if (newFilename) ...; if (newUploadDate) ...; if (newEditDate) ...;`
followed by the unconditional `metadata.editDate = new Date().toISOString()`.
JS truthiness makes an empty-string `newFilename` a no-op. -/
def applyBody (m : Record) (body : EditBody) (now : Nat) : Record :=
  let m2 := match body.newFilename with
            | some nf => if nf = "" then m else { m with filename := nf }
            | none => m
  let m3 := match body.newUploadDate with
            | some nu => { m2 with uploadDate := nu }
            | none => m2
  let m4 := match body.newEditDate with
            | some ne => { m3 with editDate := ne }
            | none => m3
  { m4 with editDate := now }

/-- The blob directory after `multer` handled the request: when a file part
is present it is stored under its original name before the handler runs. -/
def multerStore (st : ServerState) (reqFile : Option (String × Nat)) : Fs :=
  match reqFile with
  | some (orig, _) => fsWrite st.fs (UPLOADS_PDFS_DIR ++ orig)
  | none => st.fs

/-- `app.patch("/pdf/edit/:id")`.  Order of the source: multer stores the
upload (when present), 404 check, then for an upload: 409 conflict check
excluding the record itself, `fs.unlink` of the old blob (failing with 500
when it throws), file-field updates; then body-field updates and the final
server-side `editDate`; then `pdfFiles.set`. -/
def editTx (st : ServerState) (id : String) (reqFile : Option (String × Nat))
    (body : EditBody) (now : Nat) (unlinkFault : Bool) :
    ServerState × Except TxError String :=
  let fs1 := multerStore st reqFile
  match mapGet st.pdfFiles id with
  | none => ({ st with fs := fs1 }, .error .notFound)
  | some metadata =>
      match reqFile with
      | none =>
          let m5 := applyBody metadata body now
          ({ pdfFiles := mapSet st.pdfFiles id m5, fs := fs1 }, .ok id)
      | some (orig, newSize) =>
          if (mapValues st.pdfFiles).any
              (fun f => f.filename == orig && f.id != id) then
            ({ st with fs := fs1 }, .error .conflict)
          else if unlinkFault ∨ metadata.filepath ∉ fs1 then
            ({ st with fs := fs1 }, .error .ioError)
          else
            let fs2 := fsRemove fs1 metadata.filepath
            let m1 := { metadata with
              filename := orig
              filepath := UPLOADS_PDFS_DIR ++ orig
              size := newSize }
            let m5 := applyBody m1 body now
            ({ pdfFiles := mapSet st.pdfFiles id m5, fs := fs2 }, .ok id)

/-- `app.delete("/pdf/delete/:id")`: 404 check, then `fs.unlink` and only on
its success the `pdfFiles.delete`; any unlink throw (ENOENT for an absent
blob included) lands in the `catch` and yields 500 with the record kept. -/
def deleteTx (st : ServerState) (id : String) (unlinkFault : Bool) :
    ServerState × Except TxError Unit :=
  match mapGet st.pdfFiles id with
  | none => (st, .error .notFound)
  | some metadata =>
      if unlinkFault ∨ metadata.filepath ∉ st.fs then
        (st, .error .ioError)
      else
        ({ pdfFiles := mapDelete st.pdfFiles id,
           fs := fsRemove st.fs metadata.filepath }, .ok ())

/-- `app.get("/pdf/fetch/:id")`: 404 when the id is absent, then
`fs.readFile` of the stored path (500 when it throws); on success the
handler sends the bytes read from that path. -/
def fetchTx (st : ServerState) (id : String) (readFault : Bool) :
    ServerState × Except TxError String :=
  match mapGet st.pdfFiles id with
  | none => (st, .error .notFound)
  | some metadata =>
      if readFault ∨ metadata.filepath ∉ st.fs then
        (st, .error .ioError)
      else
        (st, .ok metadata.filepath)

/-- Keys of the index, all distinct (the JS `Map` guarantees this). -/
def keysNodup (m : FileMap) : Prop := (m.map Prod.fst).Nodup

/-- Every stored record's `id` field equals its key in the `Map` (the create
handler builds the record with `id` equal to the key it `set`s). -/
def idCoherent (m : FileMap) : Prop := ∀ p ∈ m, p.2.id = p.1

/-- No two live records share a `filename`. -/
def namesNodup (m : FileMap) : Prop := (names m).Nodup

/-! ### Sequences of successful transactions -/

/-- One mutating HTTP request, as dispatched to a transaction. -/
inductive Tx where
  | create (reqFile : Option (String × Nat)) (newId : String)
  | edit (id : String) (reqFile : Option (String × Nat)) (body : EditBody)
  | delete (id : String)

/-- Dispatch of one request at clock time `now`. -/
def applyTx (st : ServerState) (tx : Tx) (now : Nat) (fault : Bool) :
    ServerState × Except TxError String :=
  match tx with
  | .create f i => createTx st f i now
  | .edit id f b => editTx st id f b now fault
  | .delete id =>
      match deleteTx st id fault with
      | (st', .ok _) => (st', .ok id)
      | (st', .error e) => (st', .error e)

/-- States reachable through finite sequences of successful transactions
whose requests all satisfy `P`, starting from an empty index (the server's
state before any upload; the blob directory may hold stray files).  The
physical clock strictly increases from one request to the next. -/
inductive Reach (P : Tx → Prop) : Nat → ServerState → Prop where
  | init (t : Nat) (fs : Fs) : Reach P t ⟨[], fs⟩
  | step {t : Nat} {st st' : ServerState} (tx : Tx) (t' : Nat)
      (fault : Bool) (r : String) (hr : Reach P t st) (hP : P tx) (hlt : t < t')
      (happ : applyTx st tx t' fault = (st', .ok r)) : Reach P t' st'

/-- Requests whose Edits carry no `newFilename` body field. -/
def NoRename : Tx → Prop
  | .edit _ _ b => b.newFilename = none
  | _ => True

/-- Requests whose Edits carry no `newUploadDate` body field. -/
def NoUploadDateOverride : Tx → Prop
  | .edit _ _ b => b.newUploadDate = none
  | _ => True

/-! ### The snapshot codec (`src/data.js`)

`savedPdfFilesDataToFile` writes `JSON.stringify(Array.from(pdfFiles.entries()))`
to `pdfFilesData.json`; `loadPdfFilesDataFromFile` reads the file,
treats a blank file as nothing-to-load, parses it with `JSON.parse`, and on
any read or parse failure falls back to an empty `Map`.  The serializer
below produces exactly the bytes `JSON.stringify` produces for an entries
array of our records (dates represented by their `Nat` code rendered as a
JSON string), and the parser accepts the serializer's image, returning
`none` where `JSON.parse`/`new Map` would throw. -/

/-- Lowercase hexadecimal digit, as `JSON.stringify` emits in `\u00XX`. -/
def hexDigitChar : Nat → Char
  | 0 => '0' | 1 => '1' | 2 => '2' | 3 => '3' | 4 => '4' | 5 => '5'
  | 6 => '6' | 7 => '7' | 8 => '8' | 9 => '9' | 10 => 'a' | 11 => 'b'
  | 12 => 'c' | 13 => 'd' | 14 => 'e' | _ => 'f'

def hexVal (c : Char) : Option Nat :=
  if '0' ≤ c ∧ c ≤ '9' then some (c.toNat - 48)
  else if 'a' ≤ c ∧ c ≤ 'f' then some (c.toNat - 87)
  else if 'A' ≤ c ∧ c ≤ 'F' then some (c.toNat - 55)
  else none

/-- How `JSON.stringify` escapes one character inside a string literal. -/
def escChar (c : Char) : List Char :=
  if c = '"' then ['\\', '"']
  else if c = '\\' then ['\\', '\\']
  else if c = Char.ofNat 8 then ['\\', 'b']
  else if c = '\t' then ['\\', 't']
  else if c = '\n' then ['\\', 'n']
  else if c = Char.ofNat 12 then ['\\', 'f']
  else if c = '\r' then ['\\', 'r']
  else if c.toNat < 32 then
    ['\\', 'u', '0', '0', hexDigitChar (c.toNat / 16), hexDigitChar (c.toNat % 16)]
  else [c]

def escList : List Char → List Char
  | [] => []
  | c :: cs => escChar c ++ escList cs

/-- A JSON string literal for `s`: quote, escaped body, quote. -/
def jstr (s : String) : List Char :=
  '"' :: escList s.data ++ ['"']

/-- One escape sequence after a backslash, as `JSON.parse` reads it. -/
def parseEsc : List Char → Option (Char × List Char)
  | '"' :: r => some ('"', r)
  | '\\' :: r => some ('\\', r)
  | '/' :: r => some ('/', r)
  | 'b' :: r => some (Char.ofNat 8, r)
  | 't' :: r => some ('\t', r)
  | 'n' :: r => some ('\n', r)
  | 'f' :: r => some (Char.ofNat 12, r)
  | 'r' :: r => some ('\r', r)
  | 'u' :: h1 :: h2 :: h3 :: h4 :: r =>
      match hexVal h1, hexVal h2, hexVal h3, hexVal h4 with
      | some a, some b, some c, some d =>
          some (Char.ofNat (4096 * a + 256 * b + 16 * c + d), r)
      | _, _, _, _ => none
  | _ => none

/-- String-literal body up to the closing quote; the fuel only serves
termination and is instantiated with more than the input length. -/
def parseStringBody : Nat → List Char → Option (List Char × List Char)
  | 0, _ => none
  | _ + 1, [] => none
  | fuel + 1, c :: rest =>
      if c = '"' then some ([], rest)
      else if c = '\\' then
        match parseEsc rest with
        | some (d, rest2) =>
            match parseStringBody fuel rest2 with
            | some (s, rest3) => some (d :: s, rest3)
            | none => none
        | none => none
      else
        match parseStringBody fuel rest with
        | some (s, rest2) => some (c :: s, rest2)
        | none => none

def parseJString : List Char → Option (String × List Char)
  | '"' :: rest =>
      match parseStringBody (rest.length + 1) rest with
      | some (s, rest2) => some (⟨s⟩, rest2)
      | none => none
  | _ => none

/-- Decimal rendering of a natural number. -/
def natToChars (n : Nat) : List Char :=
  if _h : n < 10 then [hexDigitChar n]
  else natToChars (n / 10) ++ [hexDigitChar (n % 10)]
decreasing_by exact Nat.div_lt_self (by omega) (by omega)

def parseNatAux : Nat → List Char → Nat × List Char
  | acc, [] => (acc, [])
  | acc, c :: rest =>
      if c.isDigit then parseNatAux (acc * 10 + (c.toNat - 48)) rest
      else (acc, c :: rest)

def parseNat : List Char → Option (Nat × List Char)
  | [] => none
  | c :: rest =>
      if c.isDigit then some (parseNatAux (c.toNat - 48) rest) else none

/-- A date value: its code as a JSON string of decimal digits. -/
def jdate (n : Nat) : List Char :=
  '"' :: natToChars n ++ ['"']

def parseJDate : List Char → Option (Nat × List Char)
  | '"' :: rest =>
      match parseNat rest with
      | some (n, '"' :: rest2) => some (n, rest2)
      | _ => none
  | _ => none

/-- Consume an exact literal. -/
def parseLit : List Char → List Char → Option (List Char)
  | [], input => some input
  | _ :: _, [] => none
  | p :: ps, c :: rest => if c = p then parseLit ps rest else none

def keyId : List Char := ['\x7b', '"', 'i', 'd', '"', ':']

def keyFilename : List Char := [',', '"', 'f', 'i', 'l', 'e', 'n', 'a', 'm', 'e', '"', ':']

def keyFilepath : List Char := [',', '"', 'f', 'i', 'l', 'e', 'p', 'a', 't', 'h', '"', ':']

def keySize : List Char := [',', '"', 's', 'i', 'z', 'e', '"', ':']

def keyUploadDate : List Char :=
  [',', '"', 'u', 'p', 'l', 'o', 'a', 'd', 'D', 'a', 't', 'e', '"', ':']

def keyEditDate : List Char := [',', '"', 'e', 'd', 'i', 't', 'D', 'a', 't', 'e', '"', ':']

/-- `JSON.stringify` of one metadata object, fields in construction order. -/
def serializeRecord (r : Record) : List Char :=
  keyId ++ jstr r.id ++ keyFilename ++ jstr r.filename ++
  keyFilepath ++ jstr r.filepath ++ keySize ++ natToChars r.size ++
  keyUploadDate ++ jdate r.uploadDate ++ keyEditDate ++ jdate r.editDate ++ ['\x7d']

def parseRecord (input : List Char) : Option (Record × List Char) :=
  match parseLit keyId input with
  | none => none
  | some i1 =>
  match parseJString i1 with
  | none => none
  | some (rid, i2) =>
  match parseLit keyFilename i2 with
  | none => none
  | some i3 =>
  match parseJString i3 with
  | none => none
  | some (fn, i4) =>
  match parseLit keyFilepath i4 with
  | none => none
  | some i5 =>
  match parseJString i5 with
  | none => none
  | some (fp, i6) =>
  match parseLit keySize i6 with
  | none => none
  | some i7 =>
  match parseNat i7 with
  | none => none
  | some (sz, i8) =>
  match parseLit keyUploadDate i8 with
  | none => none
  | some i9 =>
  match parseJDate i9 with
  | none => none
  | some (ud, i10) =>
  match parseLit keyEditDate i10 with
  | none => none
  | some i11 =>
  match parseJDate i11 with
  | none => none
  | some (ed, i12) =>
  match i12 with
  | '\x7d' :: i13 => some (⟨rid, fn, fp, sz, ud, ed⟩, i13)
  | _ => none

/-- `JSON.stringify` of one `[id, record]` entry. -/
def serializePair (p : String × Record) : List Char :=
  '[' :: jstr p.1 ++ ',' :: serializeRecord p.2 ++ [']']

def parsePair (input : List Char) : Option ((String × Record) × List Char) :=
  match input with
  | '[' :: i1 =>
      match parseJString i1 with
      | some (k, ',' :: i2) =>
          match parseRecord i2 with
          | some (r, ']' :: i3) => some ((k, r), i3)
          | _ => none
      | _ => none
  | _ => none

def serializeItemsTail : List (String × Record) → List Char
  | [] => []
  | p :: ps => ',' :: serializePair p ++ serializeItemsTail ps

/-- `JSON.stringify(Array.from(map.entries()))`. -/
def serializeEntries : List (String × Record) → String
  | [] => "[]"
  | p :: ps => ⟨'[' :: (serializePair p ++ serializeItemsTail ps ++ [']'])⟩

def parseItemsAux : Nat → List Char → Option (List (String × Record))
  | 0, _ => none
  | fuel + 1, input =>
      match parsePair input with
      | some (p, [']']) => some [p]
      | some (p, ',' :: rest2) =>
          match parseItemsAux fuel rest2 with
          | some ps => some (p :: ps)
          | none => none
      | _ => none

/-- `JSON.parse` of an entries array followed by the shape checks that
`new Map(entries)` performs; `none` where the JS code would throw. -/
def parseEntries (s : String) : Option (List (String × Record)) :=
  match s.data with
  | ['[', ']'] => some []
  | '[' :: rest => parseItemsAux (rest.length + 1) rest
  | _ => none

/-- `savedPdfFilesDataToFile`: the bytes written to `pdfFilesData.json`. -/
def savedPdfFilesDataToFile (m : FileMap) : String :=
  serializeEntries m

/-- `new Map(entries)`: later entries win; earlier position is kept. -/
def mapOfList (l : List (String × Record)) : FileMap :=
  l.foldl (fun acc p => mapSet acc p.1 p.2) []

/-- The source's blank test `data.trim() === ""`: true exactly when every
character is whitespace. -/
def isBlank (s : String) : Bool :=
  s.data.all (fun c => c.isWhitespace)

/-- `loadPdfFilesDataFromFile`, modelled over the file content: `none` when
`fs.readFile` throws (absent or unreadable file; the `catch` resets the map
to empty), `some s` when the file holds `s`.  A blank file returns early
leaving the current map (empty at startup); a `JSON.parse` or `new Map`
throw lands in the `catch`, which resets the map to empty.  The function is
total: no input makes loading fail. -/
def loadPdfFilesDataFromFile (content : Option String) (current : FileMap) :
    FileMap :=
  match content with
  | none => []
  | some s =>
      if isBlank s then current
      else
        match parseEntries s with
        | some entries => mapOfList entries
        | none => []

/-- The next character, if any, is not a decimal digit. -/
def nonDigitStart : List Char → Bool
  | [] => true
  | c :: _ => !c.isDigit


/-! ### Association-list facts about the `Map` model -/

theorem mapGet_mapSet_self (m : FileMap) (k : String) (v : Record) :
    mapGet (mapSet m k v) k = some v := by
  induction m with
  | nil => simp [mapSet, mapGet]
  | cons p rest ih =>
    obtain ⟨k', v'⟩ := p
    by_cases h : k' = k
    · subst h; simp [mapSet, mapGet]
    · simp [mapSet, mapGet, h, ih]

theorem mapGet_mem {m : FileMap} {k : String} {v : Record}
    (h : mapGet m k = some v) : (k, v) ∈ m := by
  induction m with
  | nil => simp [mapGet] at h
  | cons p rest ih =>
    obtain ⟨k', v'⟩ := p
    by_cases hk : k' = k
    · subst hk
      simp [mapGet] at h
      simp [h]
    · simp [mapGet, hk] at h
      exact List.mem_cons_of_mem _ (ih h)

theorem mem_mapSet {m : FileMap} {k : String} {v : Record} {p : String × Record}
    (h : p ∈ mapSet m k v) : p = (k, v) ∨ p ∈ m := by
  induction m with
  | nil => simp [mapSet] at h; simp [h]
  | cons q rest ih =>
    obtain ⟨k', v'⟩ := q
    by_cases hk : k' = k
    · subst hk
      simp [mapSet] at h
      rcases h with h | h
      · exact Or.inl h
      · exact Or.inr (List.mem_cons_of_mem _ h)
    · simp [mapSet, hk] at h
      rcases h with h | h
      · exact Or.inr (by simp [h])
      · rcases ih h with h' | h'
        · exact Or.inl h'
        · exact Or.inr (List.mem_cons_of_mem _ h')

theorem mem_keys_mapSet {m : FileMap} {k : String} {v : Record} {x : String}
    (h : x ∈ (mapSet m k v).map Prod.fst) :
    x = k ∨ x ∈ m.map Prod.fst := by
  rcases List.mem_map.mp h with ⟨p, hp, hx⟩
  rcases mem_mapSet hp with h' | h'
  · left; rw [← hx, h']
  · right; exact hx ▸ List.mem_map_of_mem Prod.fst h'

theorem keysNodup_mapSet {m : FileMap} (k : String) (v : Record)
    (h : keysNodup m) : keysNodup (mapSet m k v) := by
  induction m with
  | nil => simp [mapSet, keysNodup]
  | cons p rest ih =>
    obtain ⟨k', v'⟩ := p
    unfold keysNodup at h ⊢
    simp only [List.map_cons, List.nodup_cons] at h
    by_cases hk : k' = k
    · subst hk
      simp [mapSet, keysNodup, h.1, h.2]
    · simp only [mapSet, if_neg hk, List.map_cons, List.nodup_cons]
      refine ⟨fun hmem => ?_, ih h.2⟩
      rcases mem_keys_mapSet hmem with h' | h'
      · exact hk h'
      · exact h.1 h'

theorem mem_names_mapSet {m : FileMap} {k : String} {v : Record} {x : String}
    (h : x ∈ names (mapSet m k v)) : x = v.filename ∨ x ∈ names m := by
  unfold names at h
  rcases List.mem_map.mp h with ⟨p, hp, hx⟩
  rcases mem_mapSet hp with h' | h'
  · left; rw [← hx, h']
  · right; exact hx ▸ List.mem_map_of_mem _ h'

theorem namesNodup_mapSet_fresh {m : FileMap} {k : String} {v : Record}
    (hn : namesNodup m) (hfresh : v.filename ∉ names m) :
    namesNodup (mapSet m k v) := by
  induction m with
  | nil => simp [mapSet, namesNodup, names]
  | cons p rest ih =>
    obtain ⟨k', v'⟩ := p
    unfold namesNodup names at hn ⊢
    simp only [List.map_cons, List.nodup_cons] at hn
    unfold names at hfresh
    simp only [List.map_cons, List.mem_cons] at hfresh
    push_neg at hfresh
    by_cases hk : k' = k
    · subst hk
      simp only [mapSet, eq_self_iff_true, if_true, List.map_cons, List.nodup_cons]
      exact ⟨fun hmem => hfresh.2 hmem, hn.2⟩
    · simp only [mapSet, if_neg hk, List.map_cons, List.nodup_cons]
      refine ⟨fun hmem => ?_, ih hn.2 hfresh.2⟩
      rcases mem_names_mapSet hmem with h' | h'
      · exact hfresh.1 h'.symm
      · exact hn.1 h'

theorem names_mapSet_sameName {m : FileMap} {k : String} {v w : Record}
    (hget : mapGet m k = some w) (hname : v.filename = w.filename) :
    names (mapSet m k v) = names m := by
  induction m with
  | nil => simp [mapGet] at hget
  | cons p rest ih =>
    obtain ⟨k', v'⟩ := p
    by_cases hk : k' = k
    · subst hk
      simp [mapGet] at hget
      simp [mapSet, names, hname, hget]
    · simp [mapGet, hk] at hget
      simp [mapSet, names, hk] at ih ⊢
      exact ih hget

theorem namesNodup_mapSet_replace {m : FileMap} {k : String} {v w : Record}
    (hkeys : keysNodup m) (hget : mapGet m k = some w)
    (hothers : ∀ p ∈ m, p.1 ≠ k → p.2.filename ≠ v.filename)
    (hn : namesNodup m) : namesNodup (mapSet m k v) := by
  induction m with
  | nil => simp [mapGet] at hget
  | cons p rest ih =>
    obtain ⟨k', v'⟩ := p
    unfold keysNodup at hkeys
    simp only [List.map_cons, List.nodup_cons] at hkeys
    unfold namesNodup names at hn ⊢
    simp only [List.map_cons, List.nodup_cons] at hn
    by_cases hk : k' = k
    · subst hk
      simp only [mapSet, eq_self_iff_true, if_true, List.map_cons, List.nodup_cons]
      refine ⟨fun hmem => ?_, hn.2⟩
      simp only [names, List.mem_map] at hmem
      rcases hmem with ⟨q, hq, hqname⟩
      have hqk : q.1 ≠ k' := by
        intro hq1
        exact hkeys.1 (hq1 ▸ List.mem_map_of_mem Prod.fst hq)
      exact hothers q (List.mem_cons_of_mem _ hq) hqk hqname
    · simp [mapGet, hk] at hget
      simp only [mapSet, if_neg hk, List.map_cons, List.nodup_cons]
      refine ⟨fun hmem => ?_, ih hkeys.2 hget
        (fun q hq hqk => hothers q (List.mem_cons_of_mem _ hq) hqk) hn.2⟩
      rcases mem_names_mapSet hmem with h' | h'
      · exact hothers (k', v') (List.mem_cons_self _ _) hk h'
      · exact hn.1 h'

theorem idCoherent_mapSet {m : FileMap} {k : String} {v : Record}
    (h : idCoherent m) (hv : v.id = k) : idCoherent (mapSet m k v) := by
  intro p hp
  rcases mem_mapSet hp with h' | h'
  · rw [h']; exact hv
  · exact h p h'

theorem mapGet_mapDelete_self (m : FileMap) (k : String) :
    mapGet (mapDelete m k) k = none := by
  induction m with
  | nil => simp [mapDelete, mapGet]
  | cons p rest ih =>
    obtain ⟨k', v'⟩ := p
    by_cases hk : k' = k
    · subst hk
      simpa [mapDelete] using ih
    · simp only [mapDelete, List.filter_cons] at ih ⊢
      simp [hk, mapGet, ih]

theorem mapDelete_sublist (m : FileMap) (k : String) :
    List.Sublist (mapDelete m k) m :=
  List.filter_sublist m

theorem keysNodup_mapDelete {m : FileMap} (k : String) (h : keysNodup m) :
    keysNodup (mapDelete m k) :=
  List.Nodup.sublist (List.Sublist.map Prod.fst (mapDelete_sublist m k)) h

theorem namesNodup_mapDelete {m : FileMap} (k : String) (h : namesNodup m) :
    namesNodup (mapDelete m k) :=
  List.Nodup.sublist (List.Sublist.map _ (mapDelete_sublist m k)) h

theorem idCoherent_mapDelete {m : FileMap} (k : String) (h : idCoherent m) :
    idCoherent (mapDelete m k) :=
  fun p hp => h p (List.Sublist.mem hp (mapDelete_sublist m k))

theorem mem_fsWrite_self (fs : Fs) (p : String) : p ∈ fsWrite fs p := by
  unfold fsWrite
  split
  · assumption
  · exact List.mem_cons_self _ _

/-! ### Reading the uniqueness-scan booleans -/

theorem any_filename_eq_false {m : FileMap} {nm : String}
    (h : ¬ (mapValues m).any (fun f => f.filename == nm) = true) :
    nm ∉ names m := by
  intro hmem
  simp only [names, List.mem_map] at hmem
  rcases hmem with ⟨p, hp, hname⟩
  apply h
  simp only [mapValues, List.any_eq_true, List.mem_map]
  exact ⟨p.2, ⟨p, hp, rfl⟩, by simp [hname]⟩

theorem any_filename_eq_true {m : FileMap} {nm : String}
    (h : nm ∈ names m) :
    (mapValues m).any (fun f => f.filename == nm) = true := by
  simp only [names, List.mem_map] at h
  rcases h with ⟨p, hp, hname⟩
  simp only [mapValues, List.any_eq_true, List.mem_map]
  exact ⟨p.2, ⟨p, hp, rfl⟩, by simp [hname]⟩

theorem any_conflict_false {m : FileMap} {nm id : String}
    (h : ¬ (mapValues m).any (fun f => f.filename == nm && f.id != id) = true) :
    ∀ p ∈ m, p.2.filename = nm → p.2.id = id := by
  intro p hp hname
  by_contra hid
  apply h
  simp only [mapValues, List.any_eq_true, List.mem_map]
  exact ⟨p.2, ⟨p, hp, rfl⟩, by simp [hname, hid]⟩

/-! ### Facts about the post-blob metadata update of the edit handler -/

theorem applyBody_editDate (m : Record) (b : EditBody) (now : Nat) :
    (applyBody m b now).editDate = now := rfl

theorem applyBody_id (m : Record) (b : EditBody) (now : Nat) :
    (applyBody m b now).id = m.id := by
  obtain ⟨nf, nu, ne⟩ := b
  cases nf <;> cases nu <;> cases ne <;> simp [applyBody] <;> split <;> rfl

theorem applyBody_filepath (m : Record) (b : EditBody) (now : Nat) :
    (applyBody m b now).filepath = m.filepath := by
  obtain ⟨nf, nu, ne⟩ := b
  cases nf <;> cases nu <;> cases ne <;> simp [applyBody] <;> split <;> rfl

theorem applyBody_size (m : Record) (b : EditBody) (now : Nat) :
    (applyBody m b now).size = m.size := by
  obtain ⟨nf, nu, ne⟩ := b
  cases nf <;> cases nu <;> cases ne <;> simp [applyBody] <;> split <;> rfl

theorem applyBody_filename_none (m : Record) (nu ne : Option Nat) (now : Nat) :
    (applyBody m ⟨none, nu, ne⟩ now).filename = m.filename := by
  cases nu <;> cases ne <;> rfl

theorem applyBody_filename_some (m : Record) {nf : String} (nu ne : Option Nat)
    (now : Nat) (hnf : nf ≠ "") :
    (applyBody m ⟨some nf, nu, ne⟩ now).filename = nf := by
  cases nu <;> cases ne <;> simp [applyBody, hnf]

theorem applyBody_uploadDate_none (m : Record) (nf : Option String)
    (ne : Option Nat) (now : Nat) :
    (applyBody m ⟨nf, none, ne⟩ now).uploadDate = m.uploadDate := by
  cases nf with
  | none => cases ne <;> rfl
  | some a => cases ne <;> simp [applyBody] <;> split <;> rfl

theorem any_filename_eq_false_of_not_mem {m : FileMap} {nm : String}
    (h : nm ∉ names m) :
    (mapValues m).any (fun f => f.filename == nm) = false := by
  by_contra hne
  rw [Bool.not_eq_false] at hne
  simp only [mapValues, List.any_eq_true, List.mem_map] at hne
  rcases hne with ⟨f, ⟨p, hp, hpf⟩, hf⟩
  apply h
  simp only [names, List.mem_map]
  exact ⟨p, hp, by rw [hpf]; exact beq_iff_eq.mp hf⟩

theorem count_names_mapSet_fresh {m : FileMap} {k : String} {v : Record}
    (hfresh : v.filename ∉ names m) :
    (names (mapSet m k v)).count v.filename = 1 := by
  induction m with
  | nil => simp [mapSet, names]
  | cons p rest ih =>
    obtain ⟨k', v'⟩ := p
    unfold names at hfresh
    simp only [List.map_cons, List.mem_cons] at hfresh
    push_neg at hfresh
    by_cases hk : k' = k
    · subst hk
      simp only [mapSet, eq_self_iff_true, if_true, names, List.map_cons]
      rw [List.count_cons_self, List.count_eq_zero.mpr hfresh.2]
    · simp only [mapSet, if_neg hk, names, List.map_cons]
      rw [List.count_cons_of_ne hfresh.1]
      exact ih hfresh.2

theorem applyBody_filename_of_none (m : Record) {b : EditBody} (now : Nat)
    (h : b.newFilename = none) :
    (applyBody m b now).filename = m.filename := by
  obtain ⟨nf, nu, ne⟩ := b
  simp only at h
  subst h
  cases nu <;> cases ne <;> rfl

theorem applyBody_uploadDate_of_none (m : Record) {b : EditBody} (now : Nat)
    (h : b.newUploadDate = none) :
    (applyBody m b now).uploadDate = m.uploadDate := by
  obtain ⟨nf, nu, ne⟩ := b
  simp only at h
  subst h
  exact applyBody_uploadDate_none m nf ne now

theorem mem_mapDelete {m : FileMap} {k : String} {p : String × Record}
    (h : p ∈ mapDelete m k) : p ∈ m :=
  List.Sublist.mem h (mapDelete_sublist m k)

/-- Uniqueness invariant: along rename-free successful runs the index keeps
distinct keys, records whose `id` equals their key, and distinct
filenames. -/
theorem reach_uniqueness_inv {P : Tx → Prop} {t : Nat} {st : ServerState}
    (hsub : ∀ tx, P tx → NoRename tx) (h : Reach P t st) :
    keysNodup st.pdfFiles ∧ idCoherent st.pdfFiles ∧ namesNodup st.pdfFiles := by
  induction h with
  | init t fs => exact ⟨List.nodup_nil, fun p hp => absurd hp (List.not_mem_nil p), List.nodup_nil⟩
  | step tx t' fault r hr hP hlt happ ih =>
    obtain ⟨hkeys, hid, hnames⟩ := ih
    cases tx with
    | create f i =>
      cases f with
      | none => simp [applyTx, createTx] at happ
      | some p =>
        obtain ⟨orig, sz⟩ := p
        simp only [applyTx, createTx] at happ
        split at happ
        · simp at happ
        · rename_i hany
          have hfresh := any_filename_eq_false hany
          rw [Prod.mk.injEq] at happ
          rw [← happ.1]
          exact ⟨keysNodup_mapSet _ _ hkeys,
            idCoherent_mapSet hid rfl,
            namesNodup_mapSet_fresh hnames hfresh⟩
    | edit id f b =>
      have hbnf : b.newFilename = none := hsub _ hP
      simp only [applyTx, editTx] at happ
      split at happ
      · simp at happ
      · rename_i metadata hget
        split at happ
        · rw [Prod.mk.injEq] at happ
          rw [← happ.1]
          refine ⟨keysNodup_mapSet _ _ hkeys, ?_, ?_⟩
          · refine idCoherent_mapSet hid ?_
            rw [applyBody_id]
            exact hid _ (mapGet_mem hget)
          · unfold namesNodup
            rw [names_mapSet_sameName hget (applyBody_filename_of_none _ _ hbnf)]
            exact hnames
        · rename_i orig sz
          split at happ
          · simp at happ
          · rename_i hany
            split at happ
            · simp at happ
            · have hconf := any_conflict_false hany
              rw [Prod.mk.injEq] at happ
              rw [← happ.1]
              have hm5name : (applyBody { metadata with
                  filename := orig, filepath := UPLOADS_PDFS_DIR ++ orig,
                  size := sz } b t').filename = orig := by
                rw [applyBody_filename_of_none _ _ hbnf]
              refine ⟨keysNodup_mapSet _ _ hkeys, ?_, ?_⟩
              · refine idCoherent_mapSet hid ?_
                rw [applyBody_id]
                exact hid _ (mapGet_mem hget)
              · refine namesNodup_mapSet_replace hkeys hget ?_ hnames
                intro q hq hqk
                rw [hm5name]
                intro hqname
                exact hqk ((hid q hq) ▸ hconf q hq hqname)
    | delete id =>
      simp only [applyTx] at happ
      split at happ
      · rename_i st'' u heq
        rw [Prod.mk.injEq] at happ
        simp only [deleteTx] at heq
        split at heq
        · simp at heq
        · split at heq
          · simp at heq
          · rw [Prod.mk.injEq] at heq
            rw [← happ.1, ← heq.1]
            exact ⟨keysNodup_mapDelete _ hkeys,
              idCoherent_mapDelete _ hid,
              namesNodup_mapDelete _ hnames⟩
      · simp at happ

/-- Claim C1, counterexample: from an empty index, Create "a.pdf",
Create "b.pdf", then a successful Edit of the second record supplying only
`newFilename = "a.pdf"` (no bytes) yields two live records that share the
filename "a.pdf" — the rename path of the edit handler performs no
uniqueness check. -/
theorem C1_counterexample :
    Reach (fun _ => True) 3
      ⟨[("id1", ⟨"id1", "a.pdf", "uploads/pdfs/a.pdf", 1, 1, 1⟩),
        ("id2", ⟨"id2", "a.pdf", "uploads/pdfs/b.pdf", 2, 2, 3⟩)],
       ["uploads/pdfs/b.pdf", "uploads/pdfs/a.pdf"]⟩ ∧
    ¬ namesNodup
      [("id1", ⟨"id1", "a.pdf", "uploads/pdfs/a.pdf", 1, 1, 1⟩),
       ("id2", ⟨"id2", "a.pdf", "uploads/pdfs/b.pdf", 2, 2, 3⟩)] := by
  constructor
  · have h1 : Reach (fun _ => True) 1
        ⟨[("id1", ⟨"id1", "a.pdf", "uploads/pdfs/a.pdf", 1, 1, 1⟩)],
         ["uploads/pdfs/a.pdf"]⟩ :=
      Reach.step (.create (some ("a.pdf", 1)) "id1") 1 false "id1"
        (Reach.init 0 []) trivial (by omega) (by decide)
    have h2 : Reach (fun _ => True) 2
        ⟨[("id1", ⟨"id1", "a.pdf", "uploads/pdfs/a.pdf", 1, 1, 1⟩),
          ("id2", ⟨"id2", "b.pdf", "uploads/pdfs/b.pdf", 2, 2, 2⟩)],
         ["uploads/pdfs/b.pdf", "uploads/pdfs/a.pdf"]⟩ :=
      Reach.step (.create (some ("b.pdf", 2)) "id2") 2 false "id2"
        h1 trivial (by omega) (by decide)
    exact Reach.step (.edit "id2" none ⟨some "a.pdf", none, none⟩) 3 false "id2"
      h2 trivial (by omega) (by decide)
  · unfold namesNodup names
    decide

/-- Claim C1, amended: within one category, after any finite sequence of
successful Create/Edit/Delete transactions starting from an empty Index in
which no Edit supplies a `newFilename` body field, no two live records share
a filename.  (A successful Edit that supplies only a new filename can break
uniqueness, see the counterexample.) -/
theorem C1_uniqueness {t : Nat} {st : ServerState}
    (h : Reach NoRename t st) : namesNodup st.pdfFiles :=
  (reach_uniqueness_inv (fun _ hp => hp) h).2.2

/-- Witness for the amended C1: a two-Create run keeps filenames distinct. -/
theorem C1_uniqueness_witness :
    namesNodup [("id1", ⟨"id1", "a.pdf", "uploads/pdfs/a.pdf", 1, 1, 1⟩),
      ("id2", ⟨"id2", "b.pdf", "uploads/pdfs/b.pdf", 2, 2, 2⟩)] := by
  have h1 : Reach NoRename 1
      ⟨[("id1", ⟨"id1", "a.pdf", "uploads/pdfs/a.pdf", 1, 1, 1⟩)],
       ["uploads/pdfs/a.pdf"]⟩ :=
    Reach.step (.create (some ("a.pdf", 1)) "id1") 1 false "id1"
      (Reach.init 0 []) trivial (by omega) (by decide)
  have h2 : Reach NoRename 2
      ⟨[("id1", ⟨"id1", "a.pdf", "uploads/pdfs/a.pdf", 1, 1, 1⟩),
        ("id2", ⟨"id2", "b.pdf", "uploads/pdfs/b.pdf", 2, 2, 2⟩)],
       ["uploads/pdfs/b.pdf", "uploads/pdfs/a.pdf"]⟩ :=
    Reach.step (.create (some ("b.pdf", 2)) "id2") 2 false "id2"
      h1 trivial (by omega) (by decide)
  exact C1_uniqueness h2

/-- Timestamp invariant along runs whose Edits carry no `newUploadDate`:
every record satisfies `uploadDate ≤ editDate ≤ clock`. -/
theorem reach_timestamps_inv {t : Nat} {st : ServerState}
    (h : Reach NoUploadDateOverride t st) :
    ∀ p ∈ st.pdfFiles, p.2.uploadDate ≤ p.2.editDate ∧ p.2.editDate ≤ t := by
  induction h with
  | init t fs => intro p hp; exact absurd hp (List.not_mem_nil p)
  | step tx t' fault r hr hP hlt happ ih =>
    cases tx with
    | create f i =>
      cases f with
      | none => simp [applyTx, createTx] at happ
      | some pr =>
        obtain ⟨orig, sz⟩ := pr
        simp only [applyTx, createTx] at happ
        split at happ
        · simp at happ
        · rw [Prod.mk.injEq] at happ
          rw [← happ.1]
          intro p hp
          rcases mem_mapSet hp with hnew | hold
          · rw [hnew]
            exact ⟨le_refl _, le_refl _⟩
          · obtain ⟨h1, h2⟩ := ih p hold
            exact ⟨h1, le_trans h2 (le_of_lt hlt)⟩
    | edit id f b =>
      have hbnu : b.newUploadDate = none := hP
      simp only [applyTx, editTx] at happ
      split at happ
      · simp at happ
      · rename_i metadata hget
        have hmet := ih _ (mapGet_mem hget)
        split at happ
        · rw [Prod.mk.injEq] at happ
          rw [← happ.1]
          intro p hp
          rcases mem_mapSet hp with hnew | hold
          · rw [hnew]
            constructor
            · rw [applyBody_uploadDate_of_none _ _ hbnu, applyBody_editDate]
              exact le_trans (le_trans hmet.1 hmet.2) (le_of_lt hlt)
            · rw [applyBody_editDate]
          · obtain ⟨h1, h2⟩ := ih p hold
            exact ⟨h1, le_trans h2 (le_of_lt hlt)⟩
        · rename_i orig sz
          split at happ
          · simp at happ
          · split at happ
            · simp at happ
            · rw [Prod.mk.injEq] at happ
              rw [← happ.1]
              intro p hp
              rcases mem_mapSet hp with hnew | hold
              · rw [hnew]
                constructor
                · rw [applyBody_uploadDate_of_none _ _ hbnu, applyBody_editDate]
                  exact le_trans (le_trans hmet.1 hmet.2) (le_of_lt hlt)
                · rw [applyBody_editDate]
              · obtain ⟨h1, h2⟩ := ih p hold
                exact ⟨h1, le_trans h2 (le_of_lt hlt)⟩
    | delete id =>
      simp only [applyTx] at happ
      split at happ
      · rename_i st'' u heq
        rw [Prod.mk.injEq] at happ
        simp only [deleteTx] at heq
        split at heq
        · simp at heq
        · split at heq
          · simp at heq
          · rw [Prod.mk.injEq] at heq
            rw [← happ.1, ← heq.1]
            intro p hp
            obtain ⟨h1, h2⟩ := ih p (mem_mapDelete hp)
            exact ⟨h1, le_trans h2 (le_of_lt hlt)⟩
      · simp at happ

/-- Claim C8, counterexample: an Edit carrying a caller-supplied
`newUploadDate` in the future makes `uploadDate` (createdAt) exceed
`editDate` (modifiedAt) on a reachable record: Create at time 1, then Edit
at time 2 with `newUploadDate = 10` stores a record with `uploadDate = 10`
and `editDate = 2`. -/
theorem C8_counterexample :
    Reach (fun _ => True) 2
      ⟨[("i", ⟨"i", "a.pdf", "uploads/pdfs/a.pdf", 3, 10, 2⟩)],
       ["uploads/pdfs/a.pdf"]⟩ ∧
    mapGet [("i", ⟨"i", "a.pdf", "uploads/pdfs/a.pdf", 3, 10, 2⟩)] "i"
      = some ⟨"i", "a.pdf", "uploads/pdfs/a.pdf", 3, 10, 2⟩ ∧
    ¬ ((⟨"i", "a.pdf", "uploads/pdfs/a.pdf", 3, 10, 2⟩ : Record).uploadDate ≤
       (⟨"i", "a.pdf", "uploads/pdfs/a.pdf", 3, 10, 2⟩ : Record).editDate) := by
  refine ⟨?_, by decide, by decide⟩
  have h1 : Reach (fun _ => True) 1
      ⟨[("i", ⟨"i", "a.pdf", "uploads/pdfs/a.pdf", 3, 1, 1⟩)],
       ["uploads/pdfs/a.pdf"]⟩ :=
    Reach.step (.create (some ("a.pdf", 3)) "i") 1 false "i"
      (Reach.init 0 []) trivial (by omega) (by decide)
  exact Reach.step (.edit "i" none ⟨none, some 10, none⟩) 2 false "i"
    h1 trivial (by omega) (by decide)

/-- Claim C8, amended: at creation `editDate` equals `uploadDate` (both the
transaction time); along any run of successful transactions in which no Edit
supplies a `newUploadDate` body field, every record satisfies
`uploadDate ≤ editDate`; and a successful Edit always strictly increases the
record's `editDate`.  (An Edit supplying `newUploadDate` can push createdAt
above modifiedAt, see the counterexample.) -/
theorem C8_timestamps :
    (∀ st orig sz newId now st' r,
        createTx st (some (orig, sz)) newId now = (st', .ok r) →
        ∃ m', mapGet st'.pdfFiles r = some m' ∧
          m'.uploadDate = now ∧ m'.editDate = now) ∧
    (∀ t st, Reach NoUploadDateOverride t st →
        ∀ p ∈ st.pdfFiles, p.2.uploadDate ≤ p.2.editDate) ∧
    (∀ t st id m reqFile body now fault st' r,
        Reach NoUploadDateOverride t st →
        mapGet st.pdfFiles id = some m → t < now →
        editTx st id reqFile body now fault = (st', .ok r) →
        ∃ m', mapGet st'.pdfFiles id = some m' ∧ m.editDate < m'.editDate) := by
  refine ⟨?_, ?_, ?_⟩
  · intro st orig sz newId now st' r h
    simp only [createTx] at h
    split at h
    · simp at h
    · rw [Prod.mk.injEq] at h
      rw [← h.1]
      have hr : r = newId := by
        have := h.2
        simp at this
        exact this.symm
      rw [hr]
      exact ⟨_, mapGet_mapSet_self _ _ _, rfl, rfl⟩
  · intro t st hreach p hp
    exact (reach_timestamps_inv hreach p hp).1
  · intro t st id m reqFile body now fault st' r hreach hget hlt h
    have hm : m.editDate ≤ t := (reach_timestamps_inv hreach _ (mapGet_mem hget)).2
    simp only [editTx, hget] at h
    split at h
    · rw [Prod.mk.injEq] at h
      rw [← h.1]
      exact ⟨_, mapGet_mapSet_self _ _ _, by rw [applyBody_editDate]; omega⟩
    · split at h
      · simp at h
      · split at h
        · simp at h
        · rw [Prod.mk.injEq] at h
          rw [← h.1]
          exact ⟨_, mapGet_mapSet_self _ _ _, by rw [applyBody_editDate]; omega⟩

/-- Witness for the amended C8: a Create at time 7 stores equal timestamps,
and an Edit at time 2 of a record created at time 1 strictly increases its
`editDate`. -/
theorem C8_timestamps_witness :
    (∃ m', mapGet [("u", (⟨"u", "w.pdf", "uploads/pdfs/w.pdf", 5, 7, 7⟩ : Record))] "u"
        = some m' ∧ m'.uploadDate = 7 ∧ m'.editDate = 7) ∧
    (∃ m', mapGet [("i", (⟨"i", "a.pdf", "uploads/pdfs/a.pdf", 3, 1, 2⟩ : Record))] "i"
        = some m' ∧
        (⟨"i", "a.pdf", "uploads/pdfs/a.pdf", 3, 1, 1⟩ : Record).editDate < m'.editDate) := by
  have h1 : Reach NoUploadDateOverride 1
      ⟨[("i", ⟨"i", "a.pdf", "uploads/pdfs/a.pdf", 3, 1, 1⟩)],
       ["uploads/pdfs/a.pdf"]⟩ :=
    Reach.step (.create (some ("a.pdf", 3)) "i") 1 false "i"
      (Reach.init 0 []) trivial (by omega) (by decide)
  refine ⟨C8_timestamps.1 ⟨[], []⟩ "w.pdf" 5 "u" 7
      ⟨[("u", ⟨"u", "w.pdf", "uploads/pdfs/w.pdf", 5, 7, 7⟩)], ["uploads/pdfs/w.pdf"]⟩
      "u" (by decide), ?_⟩
  exact C8_timestamps.2.2 1
    ⟨[("i", ⟨"i", "a.pdf", "uploads/pdfs/a.pdf", 3, 1, 1⟩)], ["uploads/pdfs/a.pdf"]⟩
    "i" ⟨"i", "a.pdf", "uploads/pdfs/a.pdf", 3, 1, 1⟩ none ⟨none, none, none⟩ 2 false
    ⟨[("i", ⟨"i", "a.pdf", "uploads/pdfs/a.pdf", 3, 1, 2⟩)], ["uploads/pdfs/a.pdf"]⟩
    "i" h1 (by decide) (by omega) (by decide)

/-! ### Claims -/

/-- Claim C2, counterexample: deleting a record whose blob file is already
absent from storage does not succeed.  The handler's `fs.unlink` throws
(ENOENT), the surrounding `catch` answers 500, and the record stays in the
index. -/
theorem C2_counterexample :
    (deleteTx ⟨[("i", ⟨"i", "a.pdf", "uploads/pdfs/a.pdf", 3, 1, 1⟩)], []⟩
        "i" false).2 = .error .ioError ∧
    mapGet (deleteTx ⟨[("i", ⟨"i", "a.pdf", "uploads/pdfs/a.pdf", 3, 1, 1⟩)], []⟩
        "i" false).1.pdfFiles "i" = some ⟨"i", "a.pdf", "uploads/pdfs/a.pdf", 3, 1, 1⟩ := by
  decide

/-- Claim C2, amended: for every Delete(id) where id is present in the Index
but the record's blob file is already absent from storage, the transaction
fails with IOError (already-absent is not tolerated) and the whole state,
Index record included, is left unchanged. -/
theorem C2_delete_absent_blob (st : ServerState) (id : String) (m : Record)
    (fault : Bool) (hget : mapGet st.pdfFiles id = some m)
    (habs : m.filepath ∉ st.fs) :
    (deleteTx st id fault).2 = .error .ioError ∧ (deleteTx st id fault).1 = st := by
  simp only [deleteTx, hget]
  rw [if_pos (Or.inr habs)]
  exact ⟨rfl, rfl⟩

/-- Witness for the amended C2 at a concrete state. -/
theorem C2_delete_absent_blob_witness :
    (deleteTx ⟨[("w", ⟨"w", "w.pdf", "uploads/pdfs/w.pdf", 2, 4, 4⟩)], []⟩
        "w" false).2 = .error .ioError ∧
    (deleteTx ⟨[("w", ⟨"w", "w.pdf", "uploads/pdfs/w.pdf", 2, 4, 4⟩)], []⟩
        "w" false).1 = ⟨[("w", ⟨"w", "w.pdf", "uploads/pdfs/w.pdf", 2, 4, 4⟩)], []⟩ :=
  C2_delete_absent_blob _ "w" ⟨"w", "w.pdf", "uploads/pdfs/w.pdf", 2, 4, 4⟩ false
    (by decide) (by decide)

/-- Claim C3, counterexample: when old-blob deletion fails for a real I/O
reason during an Edit with new bytes (injected fault `unlinkFault = true`,
old blob present on disk), the transaction does fail with IOError, but not
"before the new blob is written": the upload middleware stored the new blob
before the handler body ran, so the new blob is on disk when the failure is
reported. -/
theorem C3_counterexample :
    (editTx ⟨[("i", ⟨"i", "a.pdf", "uploads/pdfs/a.pdf", 3, 1, 1⟩)],
        ["uploads/pdfs/a.pdf"]⟩ "i"
        (some ("new.pdf", 9)) ⟨none, none, none⟩ 5 true).2 = .error .ioError ∧
    "uploads/pdfs/new.pdf" ∈
      (editTx ⟨[("i", ⟨"i", "a.pdf", "uploads/pdfs/a.pdf", 3, 1, 1⟩)],
        ["uploads/pdfs/a.pdf"]⟩ "i"
        (some ("new.pdf", 9)) ⟨none, none, none⟩ 5 true).1.fs := by
  decide

/-- Claim C3, amended: for every Edit(id) with new bytes supplied whose
old-blob deletion fails for a real I/O reason (the injected fault
`unlinkFault = true`) — and likewise when it fails because the old blob is
already absent — the transaction fails with IOError and the Index is left
intact: the record keeps its previous filename, storageLocation, size and
timestamps.  But the new blob has already been written to storage by the
upload middleware before the handler body ran, so the failure does not
happen before the new blob is written. -/
theorem C3_edit_unlink_failure (st : ServerState) (id : String) (m : Record)
    (orig : String) (newSize : Nat) (body : EditBody) (now : Nat) (fault : Bool)
    (hget : mapGet st.pdfFiles id = some m)
    (hnoconf : (mapValues st.pdfFiles).any
        (fun f => f.filename == orig && f.id != id) = false)
    (hfail : fault = true ∨ m.filepath ∉ fsWrite st.fs (UPLOADS_PDFS_DIR ++ orig)) :
    (editTx st id (some (orig, newSize)) body now fault).2 = .error .ioError ∧
    (editTx st id (some (orig, newSize)) body now fault).1.pdfFiles = st.pdfFiles ∧
    (UPLOADS_PDFS_DIR ++ orig) ∈
      (editTx st id (some (orig, newSize)) body now fault).1.fs := by
  simp only [editTx, multerStore, hget, hnoconf, Bool.false_eq_true, if_false]
  rw [if_pos hfail]
  exact ⟨rfl, rfl, mem_fsWrite_self _ _⟩

/-- Witness for the amended C3 at a concrete state. -/
theorem C3_edit_unlink_failure_witness :
    (editTx ⟨[("x", ⟨"x", "x.pdf", "uploads/pdfs/x.pdf", 4, 2, 2⟩)],
        ["uploads/pdfs/x.pdf"]⟩ "x"
        (some ("y.pdf", 7)) ⟨none, none, none⟩ 9 true).2 = .error .ioError ∧
    (editTx ⟨[("x", ⟨"x", "x.pdf", "uploads/pdfs/x.pdf", 4, 2, 2⟩)],
        ["uploads/pdfs/x.pdf"]⟩ "x"
        (some ("y.pdf", 7)) ⟨none, none, none⟩ 9 true).1.pdfFiles
      = [("x", ⟨"x", "x.pdf", "uploads/pdfs/x.pdf", 4, 2, 2⟩)] ∧
    (UPLOADS_PDFS_DIR ++ "y.pdf") ∈
      (editTx ⟨[("x", ⟨"x", "x.pdf", "uploads/pdfs/x.pdf", 4, 2, 2⟩)],
        ["uploads/pdfs/x.pdf"]⟩ "x"
        (some ("y.pdf", 7)) ⟨none, none, none⟩ 9 true).1.fs :=
  C3_edit_unlink_failure _ "x" ⟨"x", "x.pdf", "uploads/pdfs/x.pdf", 4, 2, 2⟩
    "y.pdf" 7 ⟨none, none, none⟩ 9 true (by decide) (by decide)
    (Or.inl rfl)

/-- Claim C4 (confirmed): a Create or Edit that fails leaves the Index
unchanged — in the handlers the Conflict and NotFound checks happen before
any `pdfFiles` mutation — and in particular after a successful Create(f)
a second Create with the same filename fails with Conflict and the Index
holds exactly one record named f. -/
theorem C4_domain_failure_frame :
    (∀ st reqFile newId now st' e,
        createTx st reqFile newId now = (st', .error e) →
        st'.pdfFiles = st.pdfFiles) ∧
    (∀ st id reqFile body now fault st' e,
        editTx st id reqFile body now fault = (st', .error e) →
        st'.pdfFiles = st.pdfFiles) ∧
    (∀ st orig sz1 sz2 i1 i2 t1 t2 st1 r,
        orig ∉ names st.pdfFiles →
        createTx st (some (orig, sz1)) i1 t1 = (st1, .ok r) →
        (createTx st1 (some (orig, sz2)) i2 t2).2 = .error .conflict ∧
        (names (createTx st1 (some (orig, sz2)) i2 t2).1.pdfFiles).count orig = 1) := by
  refine ⟨?_, ?_, ?_⟩
  · intro st reqFile newId now st' e h
    match reqFile with
    | none =>
        simp only [createTx] at h
        rw [Prod.mk.injEq] at h
        rw [← h.1]
    | some (orig, sz) =>
        simp only [createTx] at h
        split at h
        · rw [Prod.mk.injEq] at h
          rw [← h.1]
        · simp at h
  · intro st id reqFile body now fault st' e h
    simp only [editTx] at h
    split at h
    · rw [Prod.mk.injEq] at h
      rw [← h.1]
    · split at h
      · simp at h
      · split at h
        · rw [Prod.mk.injEq] at h
          rw [← h.1]
        · split at h
          · rw [Prod.mk.injEq] at h
            rw [← h.1]
          · simp at h
  · intro st orig sz1 sz2 i1 i2 t1 t2 st1 r hfresh h
    have hany := any_filename_eq_false_of_not_mem hfresh
    simp only [createTx, hany, Bool.false_eq_true, if_false] at h
    rw [Prod.mk.injEq] at h
    have hst1 : st1.pdfFiles = mapSet st.pdfFiles i1
        ⟨i1, orig, UPLOADS_PDFS_DIR ++ orig, sz1, t1, t1⟩ := by
      rw [← h.1]
    have hmem : orig ∈ names st1.pdfFiles := by
      rw [hst1]
      have := mapGet_mem (mapGet_mapSet_self st.pdfFiles i1
        ⟨i1, orig, UPLOADS_PDFS_DIR ++ orig, sz1, t1, t1⟩)
      simp only [names, List.mem_map]
      exact ⟨_, this, rfl⟩
    have hany2 := any_filename_eq_true hmem
    constructor
    · simp only [createTx, hany2, if_true]
    · simp only [createTx, hany2, if_true]
      rw [hst1]
      exact @count_names_mapSet_fresh st.pdfFiles i1
        ⟨i1, orig, UPLOADS_PDFS_DIR ++ orig, sz1, t1, t1⟩ hfresh

/-- Witness for C4 at a concrete state: a duplicate Create is rejected with
Conflict and exactly one record named "a.pdf" remains. -/
theorem C4_domain_failure_frame_witness :
    (createTx (createTx ⟨[], []⟩ (some ("a.pdf", 5)) "u1" 1).1
        (some ("a.pdf", 6)) "u2" 2).2 = .error .conflict ∧
    (names (createTx (createTx ⟨[], []⟩ (some ("a.pdf", 5)) "u1" 1).1
        (some ("a.pdf", 6)) "u2" 2).1.pdfFiles).count "a.pdf" = 1 :=
  C4_domain_failure_frame.2.2 ⟨[], []⟩ "a.pdf" 5 6 "u1" "u2" 1 2
    (createTx ⟨[], []⟩ (some ("a.pdf", 5)) "u1" 1).1 "u1" (by decide) (by decide)

/-- Claim C5 (confirmed): every successful Edit stores a record whose
`editDate` is the server's transaction time — the handler's final
`metadata.editDate = new Date().toISOString()` runs unconditionally,
overriding any caller-supplied `newEditDate`, with or without new bytes. -/
theorem C5_editDate_server_time (st : ServerState) (id : String)
    (reqFile : Option (String × Nat)) (body : EditBody) (now : Nat)
    (fault : Bool) (st' : ServerState) (r : String)
    (h : editTx st id reqFile body now fault = (st', .ok r)) :
    ∃ m', mapGet st'.pdfFiles id = some m' ∧ m'.editDate = now := by
  simp only [editTx] at h
  split at h
  · simp at h
  · split at h
    · rw [Prod.mk.injEq] at h
      rw [← h.1]
      exact ⟨_, mapGet_mapSet_self _ _ _, applyBody_editDate _ _ _⟩
    · split at h
      · simp at h
      · split at h
        · simp at h
        · rw [Prod.mk.injEq] at h
          rw [← h.1]
          exact ⟨_, mapGet_mapSet_self _ _ _, applyBody_editDate _ _ _⟩

/-- Witness for C5: a caller-supplied `newEditDate` of 999 is overridden by
the transaction time 5. -/
theorem C5_editDate_server_time_witness :
    ∃ m', mapGet (⟨[("i", ⟨"i", "a.pdf", "uploads/pdfs/a.pdf", 3, 1, 5⟩)],
        ["uploads/pdfs/a.pdf"]⟩ : ServerState).pdfFiles "i" = some m' ∧
      m'.editDate = 5 :=
  C5_editDate_server_time
    ⟨[("i", ⟨"i", "a.pdf", "uploads/pdfs/a.pdf", 3, 1, 1⟩)], ["uploads/pdfs/a.pdf"]⟩
    "i" none ⟨none, none, some 999⟩ 5 false
    ⟨[("i", ⟨"i", "a.pdf", "uploads/pdfs/a.pdf", 3, 1, 5⟩)], ["uploads/pdfs/a.pdf"]⟩
    "i" (by decide)

/-- Claim C9 (confirmed): a successful Delete removes the id from the Index,
after which Fetch and Delete on that id fail with NotFound; and in general
Fetch(id) and Delete(id) answer NotFound exactly when id is absent. -/
theorem C9_delete_then_notFound :
    (∀ st id fault st', deleteTx st id fault = (st', .ok ()) →
        mapGet st'.pdfFiles id = none ∧
        (fetchTx st' id false).2 = .error .notFound ∧
        (deleteTx st' id false).2 = .error .notFound) ∧
    (∀ st id fault,
        (fetchTx st id fault).2 = .error .notFound ↔ mapGet st.pdfFiles id = none) ∧
    (∀ st id fault,
        (deleteTx st id fault).2 = .error .notFound ↔ mapGet st.pdfFiles id = none) := by
  have hfetch : ∀ st id fault,
      (fetchTx st id fault).2 = .error .notFound ↔ mapGet st.pdfFiles id = none := by
    intro st id fault
    cases hg : mapGet st.pdfFiles id with
    | none => simp [fetchTx, hg]
    | some m =>
        simp only [fetchTx, hg]
        split <;> simp
  have hdel : ∀ st id fault,
      (deleteTx st id fault).2 = .error .notFound ↔ mapGet st.pdfFiles id = none := by
    intro st id fault
    cases hg : mapGet st.pdfFiles id with
    | none => simp [deleteTx, hg]
    | some m =>
        simp only [deleteTx, hg]
        split <;> simp
  refine ⟨?_, hfetch, hdel⟩
  intro st id fault st' h
  simp only [deleteTx] at h
  split at h
  · simp at h
  · split at h
    · simp at h
    · rw [Prod.mk.injEq] at h
      have habs : mapGet st'.pdfFiles id = none := by
        rw [← h.1]
        exact mapGet_mapDelete_self _ _
      exact ⟨habs, (hfetch st' id false).mpr habs, (hdel st' id false).mpr habs⟩

/-- Witness for C9 at a concrete state whose blob is present. -/
theorem C9_delete_then_notFound_witness :
    mapGet ((⟨[], []⟩ : ServerState)).pdfFiles "i" = none ∧
    (fetchTx ⟨[], []⟩ "i" false).2 = .error .notFound ∧
    (deleteTx ⟨[], []⟩ "i" false).2 = .error .notFound :=
  C9_delete_then_notFound.1
    ⟨[("i", ⟨"i", "a.pdf", "uploads/pdfs/a.pdf", 3, 1, 1⟩)], ["uploads/pdfs/a.pdf"]⟩
    "i" false ⟨[], []⟩ (by decide)

/-- Claim C10 (confirmed): an Edit that supplies a (non-empty) new filename
but no new bytes changes only `filename` and the timestamp fields: `id`,
`filepath` and `size` keep their previous values and the blob directory is
untouched, so the blob stays on disk under its old name. -/
theorem C10_rename_frame (st : ServerState) (id : String) (m : Record)
    (nf : String) (nud ned : Option Nat) (now : Nat) (fault : Bool)
    (st' : ServerState) (r : String)
    (hget : mapGet st.pdfFiles id = some m) (hnf : nf ≠ "")
    (h : editTx st id none ⟨some nf, nud, ned⟩ now fault = (st', .ok r)) :
    ∃ m', mapGet st'.pdfFiles id = some m' ∧ m'.filename = nf ∧
      m'.id = m.id ∧ m'.filepath = m.filepath ∧ m'.size = m.size ∧
      st'.fs = st.fs := by
  simp only [editTx, hget] at h
  rw [Prod.mk.injEq] at h
  rw [← h.1]
  refine ⟨applyBody m ⟨some nf, nud, ned⟩ now, mapGet_mapSet_self _ _ _,
    applyBody_filename_some m nud ned now hnf, applyBody_id _ _ _,
    applyBody_filepath _ _ _, applyBody_size _ _ _, rfl⟩

/-- Witness for C10: a concrete rename from "a.pdf" to "b.pdf". -/
theorem C10_rename_frame_witness :
    ∃ m', mapGet (editTx ⟨[("i", ⟨"i", "a.pdf", "uploads/pdfs/a.pdf", 3, 1, 1⟩)],
        ["uploads/pdfs/a.pdf"]⟩ "i" none ⟨some "b.pdf", none, none⟩ 6
        false).1.pdfFiles "i" = some m' ∧
      m'.filename = "b.pdf" ∧ m'.id = "i" ∧ m'.filepath = "uploads/pdfs/a.pdf" ∧
      m'.size = 3 ∧
      (editTx ⟨[("i", ⟨"i", "a.pdf", "uploads/pdfs/a.pdf", 3, 1, 1⟩)],
        ["uploads/pdfs/a.pdf"]⟩ "i" none ⟨some "b.pdf", none, none⟩ 6
        false).1.fs = ["uploads/pdfs/a.pdf"] :=
  C10_rename_frame
    ⟨[("i", ⟨"i", "a.pdf", "uploads/pdfs/a.pdf", 3, 1, 1⟩)], ["uploads/pdfs/a.pdf"]⟩
    "i" ⟨"i", "a.pdf", "uploads/pdfs/a.pdf", 3, 1, 1⟩ "b.pdf" none none 6 false
    _ "i" (by decide) (by decide) rfl

/-! ### Round-trip facts about the codec -/

theorem hexVal_hexDigitChar (n : Nat) (h : n < 16) :
    hexVal (hexDigitChar n) = some n := by
  interval_cases n <;> rfl

theorem hexDigitChar_toNat (n : Nat) (h : n < 10) :
    (hexDigitChar n).toNat = 48 + n := by
  interval_cases n <;> rfl

theorem hexDigitChar_isDigit (n : Nat) (h : n < 10) :
    (hexDigitChar n).isDigit = true := by
  interval_cases n <;> rfl

set_option maxHeartbeats 1000000 in
theorem parseEsc_u (c : Char) (tail : List Char) (hc : c.toNat < 32) :
    parseEsc ('u' :: '0' :: '0' :: hexDigitChar (c.toNat / 16) ::
        hexDigitChar (c.toNat % 16) :: tail) = some (c, tail) := by
  have hlt16 : c.toNat / 16 < 16 := by omega
  have hmod : c.toNat % 16 < 16 := Nat.mod_lt _ (by omega)
  simp only [parseEsc]
  rw [show hexVal '0' = some 0 from rfl,
    hexVal_hexDigitChar _ hlt16, hexVal_hexDigitChar _ hmod]
  show some (Char.ofNat (4096 * 0 + 256 * 0 + 16 * (c.toNat / 16) + c.toNat % 16),
    tail) = some (c, tail)
  rw [show 4096 * 0 + 256 * 0 + 16 * (c.toNat / 16) + c.toNat % 16 = c.toNat by
    omega, Char.ofNat_toNat]

set_option maxHeartbeats 1000000 in
theorem parseStringBody_escChar (c : Char) (tail : List Char) (f : Nat) :
    parseStringBody (f + 1) (escChar c ++ tail) =
      match parseStringBody f tail with
      | some (s, r) => some (c :: s, r)
      | none => none := by
  unfold escChar
  split_ifs with h1 h2 h3 h4 h5 h6 h7 h8
  · subst h1; rfl
  · subst h2; rfl
  · subst h3; rfl
  · subst h4; rfl
  · subst h5; rfl
  · subst h6; rfl
  · subst h7; rfl
  · show parseStringBody (f + 1) ('\\' :: 'u' :: '0' :: '0' ::
        hexDigitChar (c.toNat / 16) :: hexDigitChar (c.toNat % 16) :: tail) = _
    simp only [parseStringBody]
    rw [if_neg (by decide : ¬ ('\\' : Char) = '"')]
    simp only [if_true]
    rw [parseEsc_u c tail h8]
  · show parseStringBody (f + 1) (c :: tail) = _
    simp only [parseStringBody]
    rw [if_neg h1, if_neg h2]

theorem parseStringBody_escList (cs : List Char) :
    ∀ (f : Nat), cs.length < f → ∀ rest,
      parseStringBody f (escList cs ++ '"' :: rest) = some (cs, rest) := by
  induction cs with
  | nil =>
      intro f hf rest
      match f, hf with
      | f + 1, _ => rfl
  | cons c cs ih =>
      intro f hf rest
      match f, hf with
      | f + 1, hf =>
          have hsplit : escList (c :: cs) ++ '"' :: rest
              = escChar c ++ (escList cs ++ '"' :: rest) := by
            simp [escList]
          rw [hsplit, parseStringBody_escChar,
            ih f (by simp at hf; omega) rest]

theorem escList_length_le (cs : List Char) : cs.length ≤ (escList cs).length := by
  induction cs with
  | nil => simp [escList]
  | cons c cs ih =>
      have h1 : 1 ≤ (escChar c).length := by
        unfold escChar
        split_ifs <;> simp
      simp only [escList, List.length_append, List.length_cons]
      omega

theorem parseJString_jstr (s : String) (rest : List Char) :
    parseJString (jstr s ++ rest) = some (s, rest) := by
  have h : jstr s ++ rest = '"' :: (escList s.data ++ '"' :: rest) := by
    simp [jstr]
  rw [h]
  simp only [parseJString]
  rw [parseStringBody_escList s.data _
    (by simp only [List.length_append, List.length_cons]
        have := escList_length_le s.data
        omega) rest]

theorem natToChars_ne_nil (n : Nat) : natToChars n ≠ [] := by
  rw [natToChars]
  split_ifs <;> simp

theorem natToChars_digits : ∀ (n : Nat), ∀ c ∈ natToChars n, c.isDigit = true := by
  intro n
  induction n using Nat.strong_induction_on with
  | _ n ih =>
    intro c hc
    rw [natToChars] at hc
    by_cases h : n < 10
    · rw [dif_pos h] at hc
      simp at hc
      rw [hc]
      exact hexDigitChar_isDigit n h
    · rw [dif_neg h] at hc
      rw [List.mem_append] at hc
      rcases hc with hc | hc
      · exact ih (n / 10) (Nat.div_lt_self (by omega) (by omega)) c hc
      · simp at hc
        rw [hc]
        exact hexDigitChar_isDigit _ (Nat.mod_lt _ (by omega))

theorem foldl_natToChars :
    ∀ (n : Nat) (acc : Nat),
      (natToChars n).foldl (fun a c => a * 10 + (c.toNat - 48)) acc
        = acc * 10 ^ (natToChars n).length + n := by
  intro n
  induction n using Nat.strong_induction_on with
  | _ n ih =>
    intro acc
    rw [natToChars]
    by_cases h : n < 10
    · rw [dif_pos h]
      simp only [List.foldl_cons, List.foldl_nil, List.length_cons,
        List.length_nil, pow_one]
      rw [hexDigitChar_toNat n h]
      omega
    · rw [dif_neg h]
      rw [List.foldl_append, List.length_append]
      simp only [List.foldl_cons, List.foldl_nil, List.length_cons,
        List.length_nil, Nat.zero_add]
      rw [ih (n / 10) (Nat.div_lt_self (by omega) (by omega)) acc]
      rw [hexDigitChar_toNat _ (Nat.mod_lt _ (by omega))]
      have h48 : 48 + n % 10 - 48 = n % 10 := by omega
      rw [h48, pow_succ, add_mul, ← Nat.mul_assoc]
      generalize acc * 10 ^ (natToChars (n / 10)).length * 10 = B
      omega

theorem parseNatAux_stop (acc : Nat) (rest : List Char)
    (h : nonDigitStart rest = true) : parseNatAux acc rest = (acc, rest) := by
  cases rest with
  | nil => rfl
  | cons c r =>
      simp only [nonDigitStart, Bool.not_eq_true'] at h
      simp [parseNatAux, h]

theorem parseNatAux_digits_append (ds : List Char)
    (hds : ∀ x ∈ ds, x.isDigit = true) :
    ∀ (acc : Nat) (rest : List Char),
      parseNatAux acc (ds ++ rest)
        = parseNatAux (ds.foldl (fun a c => a * 10 + (c.toNat - 48)) acc) rest := by
  induction ds with
  | nil => intro acc rest; rfl
  | cons d ds ih =>
      intro acc rest
      have hd : d.isDigit = true := hds d (List.mem_cons_self _ _)
      show parseNatAux acc (d :: (ds ++ rest)) = _
      simp only [parseNatAux, hd, if_true, List.foldl_cons]
      exact ih (fun x hx => hds x (List.mem_cons_of_mem _ hx)) _ rest

theorem parseNat_natToChars (n : Nat) (rest : List Char)
    (hrest : nonDigitStart rest = true) :
    parseNat (natToChars n ++ rest) = some (n, rest) := by
  obtain ⟨c, ds, hcd⟩ : ∃ c ds, natToChars n = c :: ds := by
    cases hnc : natToChars n with
    | nil => exact absurd hnc (natToChars_ne_nil n)
    | cons c ds => exact ⟨c, ds, rfl⟩
  have hc : c.isDigit = true :=
    natToChars_digits n c (by rw [hcd]; exact List.mem_cons_self _ _)
  have hds : ∀ x ∈ ds, x.isDigit = true := fun x hx =>
    natToChars_digits n x (by rw [hcd]; exact List.mem_cons_of_mem _ hx)
  have hval : ds.foldl (fun a c => a * 10 + (c.toNat - 48)) (c.toNat - 48) = n := by
    have h0 := foldl_natToChars n 0
    rw [hcd] at h0
    simp only [List.foldl_cons, Nat.zero_mul, Nat.zero_add] at h0
    rw [h0]
  rw [hcd]
  show parseNat (c :: (ds ++ rest)) = some (n, rest)
  simp only [parseNat, hc, if_true]
  rw [parseNatAux_digits_append ds hds, hval, parseNatAux_stop _ _ hrest]

theorem parseJDate_jdate (n : Nat) (rest : List Char) :
    parseJDate (jdate n ++ rest) = some (n, rest) := by
  have h : jdate n ++ rest = '"' :: (natToChars n ++ '"' :: rest) := by
    simp [jdate]
  rw [h]
  simp only [parseJDate]
  rw [parseNat_natToChars n ('"' :: rest) (by rfl)]
  rfl

theorem parseLit_append (ps rest : List Char) :
    parseLit ps (ps ++ rest) = some rest := by
  induction ps with
  | nil => rfl
  | cons p ps ih =>
      show parseLit (p :: ps) (p :: (ps ++ rest)) = some rest
      simp only [parseLit, eq_self_iff_true, if_true]
      exact ih

theorem nonDigitStart_keyUploadDate (X : List Char) :
    nonDigitStart (keyUploadDate ++ X) = true := rfl

theorem nonDigitStart_keyEditDate (X : List Char) :
    nonDigitStart (keyEditDate ++ X) = true := rfl

theorem parseRecord_serializeRecord (r : Record) (rest : List Char) :
    parseRecord (serializeRecord r ++ rest) = some (r, rest) := by
  simp only [serializeRecord, List.append_assoc, List.singleton_append]
  simp only [parseRecord, parseLit_append, parseJString_jstr,
    parseNat_natToChars _ _ (nonDigitStart_keyUploadDate _),
    parseJDate_jdate]

theorem parsePair_serializePair (p : String × Record) (rest : List Char) :
    parsePair (serializePair p ++ rest) = some (p, rest) := by
  obtain ⟨k, r⟩ := p
  have h : serializePair (k, r) ++ rest
      = '[' :: (jstr k ++ ',' :: (serializeRecord r ++ ']' :: rest)) := by
    simp [serializePair]
  rw [h]
  simp only [parsePair, parseJString_jstr, parseRecord_serializeRecord]

theorem parseItemsAux_serialize (l : List (String × Record)) :
    ∀ (p0 : String × Record) (fuel : Nat), l.length < fuel →
      parseItemsAux fuel (serializePair p0 ++ (serializeItemsTail l ++ [']']))
        = some (p0 :: l) := by
  induction l with
  | nil =>
      intro p0 fuel hf
      match fuel, hf with
      | fuel + 1, _ =>
          simp only [serializeItemsTail, List.nil_append]
          simp only [parseItemsAux, parsePair_serializePair]
  | cons q l ih =>
      intro p0 fuel hf
      match fuel, hf with
      | fuel + 1, hf =>
          have h : serializeItemsTail (q :: l) ++ [']']
              = ',' :: (serializePair q ++ (serializeItemsTail l ++ [']'])) := by
            simp [serializeItemsTail]
          rw [h]
          simp only [parseItemsAux, parsePair_serializePair]
          rw [ih q fuel (by simp at hf; omega)]

theorem serializeItemsTail_length (l : List (String × Record)) :
    l.length ≤ (serializeItemsTail l).length := by
  induction l with
  | nil => simp [serializeItemsTail]
  | cons q l ih =>
      simp only [serializeItemsTail, List.length_cons, List.length_append]
      omega

/-- Claim C7 (confirmed): serializing the index entries with the snapshot
codec and deserializing the resulting bytes is the identity on the entries:
every id and every record field (filename, filepath, size, both timestamps)
comes back unchanged. -/
theorem C7_snapshot_roundtrip (l : FileMap) :
    parseEntries (savedPdfFilesDataToFile l) = some l := by
  cases l with
  | nil => rfl
  | cons p ps =>
      show parseItemsAux
          ((serializePair p ++ serializeItemsTail ps ++ [']']).length + 1)
          (serializePair p ++ serializeItemsTail ps ++ [']'])
        = some (p :: ps)
      rw [List.append_assoc]
      refine parseItemsAux_serialize ps p _ ?_
      simp only [List.length_append, List.length_cons, List.length_nil]
      have := serializeItemsTail_length ps
      omega

/-- Claim C6 (confirmed): loading the snapshot at startup is total and never
fails: an absent (unreadable) snapshot resets to the empty index, a blank
snapshot leaves the startup-empty index empty, and a snapshot the parser
rejects falls back to the empty index instead of aborting startup.  The
model `loadPdfFilesDataFromFile` is a total function, mirroring the `catch`
in the source: no input raises. -/
theorem C6_snapshot_load_recovery :
    (∀ current, loadPdfFilesDataFromFile none current = []) ∧
    (∀ s, isBlank s = true → loadPdfFilesDataFromFile (some s) [] = []) ∧
    (∀ s, parseEntries s = none → loadPdfFilesDataFromFile (some s) [] = []) := by
  refine ⟨fun current => rfl, ?_, ?_⟩
  · intro s hs
    simp [loadPdfFilesDataFromFile, hs]
  · intro s hs
    by_cases hblank : isBlank s = true
    · simp [loadPdfFilesDataFromFile, hblank]
    · simp [loadPdfFilesDataFromFile, hblank, hs]

/-- Witness for C6: a blank file, a malformed file and an absent file all
yield the empty index. -/
theorem C6_snapshot_load_recovery_witness :
    loadPdfFilesDataFromFile (some "  ") [] = [] ∧
    loadPdfFilesDataFromFile (some "not json") [] = [] ∧
    loadPdfFilesDataFromFile none [("z", ⟨"z", "z.pdf", "uploads/pdfs/z.pdf", 1, 1, 1⟩)] = [] :=
  ⟨C6_snapshot_load_recovery.2.1 "  " (by decide),
   C6_snapshot_load_recovery.2.2 "not json" (by decide),
   C6_snapshot_load_recovery.1 _⟩

end PdfStore

